import Mathlib

/- Shallow embedding of src/lib/cryptoApi.ts: the fault-tolerant, ordered
multi-provider crypto price resolution protocol.

Modelling conventions:
- A JS object used as a string-keyed dictionary is an association list kept in
  key insertion order; assigning to an existing key updates it in place,
  assigning a fresh key appends it.
- JS numbers are rationals.  The module only copies parsed prices and compares
  them with zero, so no floating point arithmetic occurs; a field that is
  absent, null or non-numeric after JSON parsing is modelled as none (its JS
  comparison with 0 is false and its "|| 0" default is 0, exactly as none
  behaves below).
- Each upstream HTTP interaction is a field of the oracle structure Net.  A
  response field that is none models any transport-level failure the code
  catches: network exception, non-success HTTP status or malformed body.
- The process-wide mutable coinGeckoListCache is threaded explicitly as an
  Option (List CoinGeckoCoin) value.
- Every observable side effect (entering an adapter, which logs, and each
  outbound network request) is recorded in an event trace. -/

/-- PriceData from cryptoApi.ts: spot price in USD and 7-day change. -/
structure PriceData where
  usd : Rat
  usd_7d_change : Rat
deriving DecidableEq

/-- PriceResult = Record of string to PriceData, in key insertion order. -/
abbrev PriceResult := List (String × PriceData)

/-- Lookup obj[k] of a JS object modelled as an association list. -/
def jget {α : Type} : List (String × α) → String → Option α
  | [], _ => none
  | p :: r, k => if p.1 == k then some p.2 else jget r k

/-- Key-presence test for a JS object. -/
def jhas {α : Type} (r : List (String × α)) (k : String) : Bool :=
  r.any (fun p => p.1 == k)

/-- JS property assignment obj[k] = v: updates the first binding of k in
place if present, otherwise appends the new key at the end. -/
def jset {α : Type} : List (String × α) → String → α → List (String × α)
  | [], k, v => [(k, v)]
  | p :: r, k, v => if p.1 == k then (k, v) :: r else p :: jset r k v

/-- Object.assign dst src: assigns every binding of src into dst, in order. -/
def jassign {α : Type} (dst src : List (String × α)) : List (String × α) :=
  src.foldl (fun d p => jset d p.1 p.2) dst

/-- The key list of a JS object, in insertion order. -/
def keys {α : Type} (r : List (String × α)) : List String :=
  r.map Prod.fst

/-- JS String.prototype.toLowerCase, as the character-wise lowercasing of
the string (the tickers involved are ASCII). -/
def jsToLower (s : String) : String :=
  String.mk (s.data.map Char.toLower)

/-- JS String.prototype.toUpperCase, as the character-wise uppercasing of
the string (the tickers involved are ASCII). -/
def jsToUpper (s : String) : String :=
  String.mk (s.data.map Char.toUpper)

/-- JS truthiness of an optional string configuration value
(import.meta.env): undefined and the empty string are falsy. -/
def jsTruthyStr : Option String → Bool
  | none => false
  | some s => !s.data.isEmpty

/-- An entry of the CoinGecko /coins/list response. -/
structure CoinGeckoCoin where
  id : String
  symbol : String
  name : String
deriving DecidableEq

/-- An entry of the CoinGecko /coins/markets response. -/
structure MarketCoin where
  id : String
  current_price : Option Rat
  price_change_percentage_7d_in_currency : Option Rat
deriving DecidableEq

/-- The relevant part of one CoinMarketCap per-symbol quote:
data.data[SYM][0].quote.USD, flattened to its price and percent_change_7d
fields (each none when the corresponding optional-chain access yields
undefined or a non-numeric value). -/
structure CmcQuote where
  price : Option Rat
  percent_change_7d : Option Rat
deriving DecidableEq

/-- The upstream world as seen by one resolution run.  Batched responses are
keyed by the string the code indexes them with (the uppercased symbol for
CoinMarketCap and CryptoCompare, the lowercased symbol for Kaiko's
one-request-per-symbol endpoint). -/
structure Net where
  coinGeckoListResp : Option (List CoinGeckoCoin)
  coinGeckoMarketsResp : Option (List MarketCoin)
  cmcApiKey : Option String
  cmcResp : Option (String → Option CmcQuote)
  ccResp : Option (Option (String → Option Rat))
  kaikoApiKey : Option String
  kaikoResp : String → Option (Option Rat)

/-- Observable events: entering a provider adapter (each logs on entry) and
each outbound network request. -/
inductive Ev where
  | callGecko (symbols : List String)
  | callCMC (symbols : List String)
  | callCC (symbols : List String)
  | callKaiko (symbols : List String)
  | reqGeckoList
  | reqGeckoMarkets (ids : List String)
  | reqCMC (symbols : List String)
  | reqCC (symbols : List String)
  | reqKaiko (symbol : String)
deriving DecidableEq

/-- getCoinGeckoList: returns the cached coin list if present; otherwise
fetches it.  On success the cache is populated; on failure the call returns
an empty list and leaves the cache unpopulated (the catch branch returns []
without assigning coinGeckoListCache). -/
def getCoinGeckoList (net : Net) (cache : Option (List CoinGeckoCoin)) :
    List CoinGeckoCoin × Option (List CoinGeckoCoin) × List Ev :=
  match cache with
  | some l => (l, some l, [])
  | none =>
    match net.coinGeckoListResp with
    | some data => (data, some data, [Ev.reqGeckoList])
    | none => ([], none, [Ev.reqGeckoList])

/-- The symbol-scanning map/filter of tryCoinGecko: builds idToSymbolMap
(coin id to requested symbol) and the list coingeckoIds, keeping for each
requested symbol the first coin whose listed symbol equals its lowercasing. -/
def geckoScan (coinList : List CoinGeckoCoin) (symbols : List String) :
    List (String × String) × List String :=
  symbols.foldl
    (fun acc symbol =>
      match coinList.find? (fun c => c.symbol == jsToLower symbol) with
      | some coin => (jset acc.1 coin.id symbol, acc.2 ++ [coin.id])
      | none => acc)
    ([], [])

/-- The response-parsing loop of tryCoinGecko over the market data.  The JS
guard is (symbol && coin.current_price > 0): the symbol looked up in
idToSymbolMap must be present and truthy (non-empty) and the price positive;
the 7d change defaults to 0 when absent. -/
def geckoFold (idToSymbolMap : List (String × String))
    (marketData : List MarketCoin) : PriceResult :=
  marketData.foldl
    (fun prices coin =>
      match jget idToSymbolMap coin.id with
      | some symbol =>
        match coin.current_price with
        | some p =>
          if symbol ≠ "" ∧ 0 < p then
            jset prices symbol
              { usd := p
                usd_7d_change :=
                  coin.price_change_percentage_7d_in_currency.getD 0 }
          else prices
        | none => prices
      | none => prices)
    []

/-- Provider 1: CoinGecko.  Translates symbols to CoinGecko ids through the
cached coin list, issues one batched markets request, and keeps only
strictly-positive prices.  Any transport failure yields an empty mapping;
the cache state is threaded through. -/
def tryCoinGecko (net : Net) (cache : Option (List CoinGeckoCoin))
    (symbols : List String) :
    PriceResult × Option (List CoinGeckoCoin) × List Ev :=
  if symbols.length = 0 then ([], cache, [Ev.callGecko symbols])
  else
    let g := getCoinGeckoList net cache
    let sc := geckoScan g.1 symbols
    if sc.2.length = 0 then ([], g.2.1, Ev.callGecko symbols :: g.2.2)
    else
      match net.coinGeckoMarketsResp with
      | none =>
        ([], g.2.1, Ev.callGecko symbols :: g.2.2 ++ [Ev.reqGeckoMarkets sc.2])
      | some marketData =>
        (geckoFold sc.1 marketData, g.2.1,
          Ev.callGecko symbols :: g.2.2 ++ [Ev.reqGeckoMarkets sc.2])

/-- The response-parsing loop of tryCoinMarketCap: for each requested symbol,
read data.data[SYM][0].quote.USD.price (SYM the uppercased symbol) and keep
it under the original symbol when strictly positive. -/
def cmcFold (data : String → Option CmcQuote) (symbols : List String) :
    PriceResult :=
  symbols.foldl
    (fun prices symbol =>
      match data (jsToUpper symbol) with
      | some coinData =>
        match coinData.price with
        | some p =>
          if 0 < p then
            jset prices symbol
              { usd := p, usd_7d_change := coinData.percent_change_7d.getD 0 }
          else prices
        | none => prices
      | none => prices)
    []

/-- Provider 2: CoinMarketCap.  A missing (or empty, hence falsy) API key
skips the provider without any request; a transport failure yields an empty
mapping. -/
def tryCoinMarketCap (net : Net) (symbols : List String) :
    PriceResult × List Ev :=
  if symbols.length = 0 then ([], [Ev.callCMC symbols])
  else if jsTruthyStr net.cmcApiKey = false then ([], [Ev.callCMC symbols])
  else
    match net.cmcResp with
    | none => ([], [Ev.callCMC symbols, Ev.reqCMC symbols])
    | some data => (cmcFold data symbols, [Ev.callCMC symbols, Ev.reqCMC symbols])

/-- The response-parsing loop of tryCryptoCompare: for each requested symbol,
read data.RAW[SYM].USD.PRICE and keep it under the original symbol when
strictly positive; this endpoint has no 7d change, so 0 is filled in. -/
def ccFold (raw : String → Option Rat) (symbols : List String) : PriceResult :=
  symbols.foldl
    (fun prices symbol =>
      match raw (jsToUpper symbol) with
      | some p =>
        if 0 < p then jset prices symbol { usd := p, usd_7d_change := 0 }
        else prices
      | none => prices)
    []

/-- Provider 3: CryptoCompare.  No credentials; the data.RAW member may be
absent from an otherwise successful response (the inner Option), in which
case nothing is parsed. -/
def tryCryptoCompare (net : Net) (symbols : List String) :
    PriceResult × List Ev :=
  if symbols.length = 0 then ([], [Ev.callCC symbols])
  else
    match net.ccResp with
    | none => ([], [Ev.callCC symbols, Ev.reqCC symbols])
    | some rawOpt =>
      match rawOpt with
      | none => ([], [Ev.callCC symbols, Ev.reqCC symbols])
      | some raw => (ccFold raw symbols, [Ev.callCC symbols, Ev.reqCC symbols])

/-- The per-symbol request loop of tryKaiko: one spot-rate request per
symbol (lowercased in the URL); a non-success response skips that symbol,
parseFloat of data.data[0].price must be strictly positive to be kept. -/
def kaikoFold (net : Net) (symbols : List String) : PriceResult × List Ev :=
  symbols.foldl
    (fun acc symbol =>
      let evs := acc.2 ++ [Ev.reqKaiko symbol]
      match net.kaikoResp (jsToLower symbol) with
      | none => (acc.1, evs)
      | some priceOpt =>
        match priceOpt with
        | some p =>
          if 0 < p then (jset acc.1 symbol { usd := p, usd_7d_change := 0 }, evs)
          else (acc.1, evs)
        | none => (acc.1, evs))
    ([], [])

/-- Provider 4: Kaiko.  A missing (or empty, hence falsy) bearer token skips
the provider without any request. -/
def tryKaiko (net : Net) (symbols : List String) : PriceResult × List Ev :=
  if symbols.length = 0 then ([], [Ev.callKaiko symbols])
  else if jsTruthyStr net.kaikoApiKey = false then ([], [Ev.callKaiko symbols])
  else
    let k := kaikoFold net symbols
    (k.1, Ev.callKaiko symbols :: k.2)

/-- The JS expression [...new Set(xs)]: deduplication keeping the first
occurrence of each (case-sensitively) equal string, in order. -/
def jsDedup : List String → List String
  | [] => []
  | x :: xs => x :: (jsDedup xs).filter (fun y => y != x)

/-- The orchestrator's running state inside fetchCryptoPrices. -/
structure OrchState where
  finalPrices : PriceResult
  remainingSymbols : List String
  cache : Option (List CoinGeckoCoin)
  trace : List Ev

/-- fetchCryptoPrices after the (unconditional) provider-1 round: dedup the
input, call tryCoinGecko, Object.assign the partial result into finalPrices
and keep only unresolved symbols. -/
def afterCoinGecko (net : Net) (cache : Option (List CoinGeckoCoin))
    (assetSymbols : List String) : OrchState :=
  let remaining0 := jsDedup assetSymbols
  let g := tryCoinGecko net cache remaining0
  let final := jassign [] g.1
  { finalPrices := final
    remainingSymbols := remaining0.filter (fun s => !jhas final s)
    cache := g.2.1
    trace := g.2.2 }

/-- One guarded fallback round of fetchCryptoPrices: if any symbols remain,
call the provider on them, Object.assign its partial result into finalPrices
and recompute the remaining symbols; otherwise do nothing. -/
def orchStep (st : OrchState) (prov : List String → PriceResult × List Ev) :
    OrchState :=
  if st.remainingSymbols.length > 0 then
    let p := prov st.remainingSymbols
    let final := jassign st.finalPrices p.1
    { st with
        finalPrices := final
        remainingSymbols := st.remainingSymbols.filter (fun s => !jhas final s)
        trace := st.trace ++ p.2 }
  else st

/-- State after the provider-2 (CoinMarketCap) round. -/
def afterCoinMarketCap (net : Net) (cache : Option (List CoinGeckoCoin))
    (assetSymbols : List String) : OrchState :=
  orchStep (afterCoinGecko net cache assetSymbols) (tryCoinMarketCap net)

/-- State after the provider-3 (CryptoCompare) round. -/
def afterCryptoCompare (net : Net) (cache : Option (List CoinGeckoCoin))
    (assetSymbols : List String) : OrchState :=
  orchStep (afterCoinMarketCap net cache assetSymbols) (tryCryptoCompare net)

/-- State after the provider-4 (Kaiko) round. -/
def afterKaiko (net : Net) (cache : Option (List CoinGeckoCoin))
    (assetSymbols : List String) : OrchState :=
  orchStep (afterCryptoCompare net cache assetSymbols) (tryKaiko net)

/-- The total-system-failure fill of fetchCryptoPrices: every symbol still
remaining after the last provider is written with the zero placeholder. -/
def zeroFill (finalPrices : PriceResult) (remainingSymbols : List String) :
    PriceResult :=
  remainingSymbols.foldl
    (fun f symbol => jset f symbol { usd := 0, usd_7d_change := 0 })
    finalPrices

/-- fetchCryptoPrices: the fault-tolerant fallback chain
CoinGecko, CoinMarketCap, CryptoCompare, Kaiko, with zero-fill at the end.
Returns the price mapping, the final coin-list cache state and the trace of
observable events. -/
def fetchCryptoPrices (net : Net) (cache : Option (List CoinGeckoCoin))
    (assetSymbols : List String) :
    PriceResult × Option (List CoinGeckoCoin) × List Ev :=
  let st := afterKaiko net cache assetSymbols
  (zeroFill st.finalPrices st.remainingSymbols, st.cache, st.trace)

/-- A world in which every provider fails: the CoinGecko endpoints are down,
both credentials are absent and every Kaiko request fails. -/
def failNet : Net :=
  { coinGeckoListResp := none
    coinGeckoMarketsResp := none
    cmcApiKey := none
    cmcResp := none
    ccResp := none
    kaikoApiKey := none
    kaikoResp := fun _ => none }

/-- A world in which CoinGecko resolves BTC at price 50000 with a 7-day
change of 3, and every other provider is unavailable. -/
def geckoNet : Net :=
  { coinGeckoListResp :=
      some [{ id := "bitcoin", symbol := "btc", name := "Bitcoin" }]
    coinGeckoMarketsResp :=
      some [{ id := "bitcoin"
              current_price := some 50000
              price_change_percentage_7d_in_currency := some 3 }]
    cmcApiKey := none
    cmcResp := none
    ccResp := none
    kaikoApiKey := none
    kaikoResp := fun _ => none }

/- ===================== Library of record lemmas ===================== -/

theorem jhas_iff {α : Type} (r : List (String × α)) (k : String) :
    jhas r k = true ↔ k ∈ keys r := by
  simp [jhas, keys, List.any_eq_true, List.mem_map]

theorem jhas_false_iff {α : Type} (r : List (String × α)) (k : String) :
    jhas r k = false ↔ k ∉ keys r := by
  rw [← jhas_iff]
  cases h : jhas r k <;> simp

theorem jget_isSome_iff {α : Type} (r : List (String × α)) (k : String) :
    (jget r k).isSome = true ↔ k ∈ keys r := by
  induction r with
  | nil => simp [jget, keys]
  | cons p r ih =>
    by_cases h : p.1 = k
    · simp [jget, keys, h]
    · simp only [jget, keys, List.map_cons, List.mem_cons]
      rw [if_neg (by simpa using h)]
      simp only [keys] at ih
      rw [ih]
      constructor
      · exact Or.inr
      · rintro (h' | h')
        · exact absurd h'.symm h
        · exact h'

theorem jget_eq_none_iff {α : Type} (r : List (String × α)) (k : String) :
    jget r k = none ↔ k ∉ keys r := by
  rw [← jget_isSome_iff]
  cases h : jget r k <;> simp [h]

theorem jget_jset_self {α : Type} (r : List (String × α)) (k : String) (v : α) :
    jget (jset r k v) k = some v := by
  induction r with
  | nil => simp [jset, jget]
  | cons p r ih =>
    by_cases h : p.1 = k
    · simp [jset, jget, h]
    · rw [jset, if_neg (by simpa using h), jget, if_neg (by simpa using h)]
      exact ih

theorem jget_jset_ne {α : Type} (r : List (String × α)) (k k' : String)
    (v : α) (h : k' ≠ k) : jget (jset r k v) k' = jget r k' := by
  induction r with
  | nil => simp [jset, jget, Ne.symm h]
  | cons p r ih =>
    by_cases hp : p.1 = k
    · rw [jset, if_pos (by simpa using hp), jget, jget,
        if_neg (by simp [Ne.symm h]), if_neg (by simp [hp, Ne.symm h])]
    · rw [jset, if_neg (by simpa using hp), jget, jget]
      by_cases hpk : p.1 = k'
      · simp [hpk]
      · rw [if_neg (by simpa using hpk), if_neg (by simpa using hpk)]
        exact ih

theorem jget_jset_cases {α : Type} (r : List (String × α)) (k k' : String)
    (v w : α) (h : jget (jset r k v) k' = some w) :
    (k' = k ∧ w = v) ∨ jget r k' = some w := by
  by_cases hk : k' = k
  · subst hk
    rw [jget_jset_self] at h
    exact Or.inl ⟨rfl, (Option.some_inj.mp h).symm⟩
  · rw [jget_jset_ne r k k' v hk] at h
    exact Or.inr h

theorem keys_jset {α : Type} (r : List (String × α)) (k : String) (v : α) :
    keys (jset r k v) = if k ∈ keys r then keys r else keys r ++ [k] := by
  induction r with
  | nil => simp [jset, keys]
  | cons p r ih =>
    by_cases h : p.1 = k
    · simp [jset, keys, h]
    · rw [jset, if_neg (by simpa using h)]
      simp only [keys, List.map_cons] at ih ⊢
      rw [ih]
      by_cases hm : k ∈ keys r
      · simp only [keys] at hm
        rw [if_pos hm, if_pos (by simp [hm])]
      · simp only [keys] at hm
        rw [if_neg hm, if_neg (by simp [hm, Ne.symm h])]
        simp

theorem mem_keys_jset {α : Type} (r : List (String × α)) (k k' : String)
    (v : α) : k' ∈ keys (jset r k v) ↔ k' ∈ keys r ∨ k' = k := by
  rw [keys_jset]
  by_cases h : k ∈ keys r
  · rw [if_pos h]
    constructor
    · exact Or.inl
    · rintro (h' | rfl)
      · exact h'
      · exact h
  · rw [if_neg h]
    simp

theorem nodup_keys_jset {α : Type} (r : List (String × α)) (k : String)
    (v : α) (h : (keys r).Nodup) : (keys (jset r k v)).Nodup := by
  rw [keys_jset]
  by_cases hm : k ∈ keys r
  · rwa [if_pos hm]
  · rw [if_neg hm]
    simp [List.nodup_append, h, hm]

theorem mem_keys_jassign {α : Type} (src : List (String × α)) :
    ∀ (dst : List (String × α)) (k : String),
      k ∈ keys (jassign dst src) ↔ k ∈ keys dst ∨ k ∈ keys src := by
  induction src with
  | nil => simp [jassign, keys]
  | cons p src ih =>
    intro dst k
    show k ∈ keys (jassign (jset dst p.1 p.2) src) ↔ _
    rw [ih, mem_keys_jset]
    simp only [keys, List.map_cons, List.mem_cons]
    tauto

theorem nodup_keys_jassign {α : Type} (src : List (String × α)) :
    ∀ dst : List (String × α),
      (keys dst).Nodup → (keys (jassign dst src)).Nodup := by
  induction src with
  | nil => intro dst h; exact h
  | cons p src ih =>
    intro dst h
    exact ih (jset dst p.1 p.2) (nodup_keys_jset dst p.1 p.2 h)

theorem jget_jassign_not_mem {α : Type} (src : List (String × α)) :
    ∀ (dst : List (String × α)) (k : String), k ∉ keys src →
      jget (jassign dst src) k = jget dst k := by
  induction src with
  | nil => intro dst k _; rfl
  | cons p src ih =>
    intro dst k hk
    simp only [keys, List.map_cons, List.mem_cons] at hk
    push_neg at hk
    show jget (jassign (jset dst p.1 p.2) src) k = _
    rw [ih (jset dst p.1 p.2) k (by simpa [keys] using hk.2),
      jget_jset_ne dst p.1 k p.2 hk.1]

theorem jget_jassign_mem {α : Type} (src : List (String × α)) :
    ∀ (dst : List (String × α)) (k : String), (keys src).Nodup →
      k ∈ keys src → jget (jassign dst src) k = jget src k := by
  induction src with
  | nil => simp [keys]
  | cons p src ih =>
    intro dst k hnd hk
    simp only [keys, List.map_cons, List.nodup_cons] at hnd
    show jget (jassign (jset dst p.1 p.2) src) k = _
    by_cases hks : k ∈ keys src
    · rw [ih (jset dst p.1 p.2) k hnd.2 hks, jget]
      rw [if_neg (by simp; rintro rfl; exact hnd.1 hks)]
    · simp only [keys, List.map_cons, List.mem_cons] at hk
      rcases hk with rfl | hk
      · rw [jget_jassign_not_mem src _ _ hks, jget_jset_self, jget]
        simp
      · exact absurd hk hks

theorem jget_jassign_cases {α : Type} (src : List (String × α)) :
    ∀ (dst : List (String × α)) (k : String) (w : α),
      jget (jassign dst src) k = some w →
      jget dst k = some w ∨ ∃ p ∈ src, p.2 = w := by
  induction src with
  | nil => intro dst k w h; exact Or.inl h
  | cons p src ih =>
    intro dst k w h
    rcases ih (jset dst p.1 p.2) k w h with h' | ⟨q, hq, rfl⟩
    · rcases jget_jset_cases dst p.1 k p.2 w h' with ⟨rfl, rfl⟩ | h''
      · exact Or.inr ⟨p, List.mem_cons_self _ _, rfl⟩
      · exact Or.inl h''
    · exact Or.inr ⟨q, List.mem_cons_of_mem _ hq, rfl⟩

theorem foldl_inv {α β : Type} {l : List β} (Inv : α → Prop)
    (f : α → β → α) (hstep : ∀ a b, b ∈ l → Inv a → Inv (f a b)) :
    ∀ a, Inv a → Inv (l.foldl f a) := by
  induction l with
  | nil => intro a h; exact h
  | cons b l ih =>
    intro a h
    exact ih (fun a' b' hb' h' => hstep a' b' (List.mem_cons_of_mem _ hb') h')
      (f a b) (hstep a b (List.mem_cons_self _ _) h)

theorem mem_jsDedup (s : String) : ∀ l : List String, s ∈ jsDedup l ↔ s ∈ l := by
  intro l
  induction l with
  | nil => simp [jsDedup]
  | cons x xs ih =>
    rw [jsDedup]
    simp only [List.mem_cons, List.mem_filter, ih]
    by_cases h : s = x
    · simp [h]
    · simp [h, bne_iff_ne]

theorem nodup_jsDedup : ∀ l : List String, (jsDedup l).Nodup := by
  intro l
  induction l with
  | nil => simp [jsDedup]
  | cons x xs ih =>
    rw [jsDedup]
    refine List.nodup_cons.mpr ⟨?_, ih.filter _⟩
    simp [List.mem_filter]

theorem zeroFill_get_not_mem (l : List String) :
    ∀ (r : PriceResult) (s : String), s ∉ l →
      jget (zeroFill r l) s = jget r s := by
  induction l with
  | nil => intro r s _; rfl
  | cons x l ih =>
    intro r s hs
    simp only [List.mem_cons] at hs
    push_neg at hs
    show jget (zeroFill (jset r x _) l) s = _
    rw [ih _ s hs.2, jget_jset_ne r x s _ hs.1]

theorem zeroFill_get_mem (l : List String) :
    ∀ r : PriceResult, l.Nodup → (∀ s ∈ l, s ∉ keys r) →
      ∀ s ∈ l, jget (zeroFill r l) s = some { usd := 0, usd_7d_change := 0 } := by
  induction l with
  | nil => simp
  | cons x l ih =>
    intro r hnd hdisj s hs
    rw [List.nodup_cons] at hnd
    show jget (zeroFill (jset r x _) l) s = _
    rcases List.mem_cons.mp hs with rfl | hs'
    · rw [zeroFill_get_not_mem l _ s hnd.1, jget_jset_self]
    · refine ih (jset r x _) hnd.2 ?_ s hs'
      intro t ht
      rw [mem_keys_jset]
      push_neg
      exact ⟨hdisj t (List.mem_cons_of_mem _ ht),
        fun h => hnd.1 (h ▸ ht)⟩

theorem mem_keys_zeroFill (l : List String) :
    ∀ (r : PriceResult) (k : String),
      k ∈ keys (zeroFill r l) ↔ k ∈ keys r ∨ k ∈ l := by
  induction l with
  | nil => simp [zeroFill]
  | cons x l ih =>
    intro r k
    show k ∈ keys (zeroFill (jset r x _) l) ↔ _
    rw [ih, mem_keys_jset]
    simp only [List.mem_cons]
    tauto

theorem nodup_keys_zeroFill (l : List String) :
    ∀ r : PriceResult, (keys r).Nodup → (keys (zeroFill r l)).Nodup := by
  induction l with
  | nil => intro r h; exact h
  | cons x l ih =>
    intro r h
    exact ih (jset r x _) (nodup_keys_jset r x _ h)

theorem zeroFill_values (l : List String) :
    ∀ (r : PriceResult) (k : String) (q : PriceData),
      jget (zeroFill r l) k = some q →
      jget r k = some q ∨ q = { usd := 0, usd_7d_change := 0 } := by
  induction l with
  | nil => intro r k q h; exact Or.inl h
  | cons x l ih =>
    intro r k q h
    rcases ih (jset r x _) k q h with h' | h'
    · rcases jget_jset_cases r x k _ q h' with ⟨rfl, rfl⟩ | h''
      · exact Or.inr rfl
      · exact Or.inl h''
    · exact Or.inr h'

/- ===================== Adapter soundness ===================== -/

/-- The contract every provider adapter's partial result satisfies: keys come
from the requested symbols, keys are unique, and every price is strictly
positive. -/
def adapterInv (symbols : List String) (r : PriceResult) : Prop :=
  (∀ k, k ∈ keys r → k ∈ symbols) ∧ (keys r).Nodup ∧
    (∀ k q, jget r k = some q → 0 < q.usd)

theorem adapterInv_nil (symbols : List String) : adapterInv symbols [] := by
  refine ⟨?_, ?_, ?_⟩ <;> simp [keys, jget]

theorem adapterInv_jset (symbols : List String) (r : PriceResult) (s : String)
    (v : PriceData) (h : adapterInv symbols r) (hs : s ∈ symbols)
    (hv : 0 < v.usd) : adapterInv symbols (jset r s v) := by
  obtain ⟨h1, h2, h3⟩ := h
  refine ⟨?_, nodup_keys_jset r s v h2, ?_⟩
  · intro k hk
    rcases (mem_keys_jset r s k v).mp hk with hk' | rfl
    · exact h1 k hk'
    · exact hs
  · intro k q hq
    rcases jget_jset_cases r s k v q hq with ⟨rfl, rfl⟩ | h'
    · exact hv
    · exact h3 k q h'

theorem geckoScan_values (coinList : List CoinGeckoCoin)
    (symbols : List String) :
    ∀ i s, jget (geckoScan coinList symbols).1 i = some s → s ∈ symbols := by
  simp only [geckoScan]
  refine foldl_inv
    (fun acc : List (String × String) × List String =>
      ∀ i s, jget acc.1 i = some s → s ∈ symbols) _ ?_ ([], []) ?_
  · intro acc b hb hInv i s hget
    cases hfind : coinList.find? (fun c => c.symbol == jsToLower b) with
    | none =>
      simp only [hfind] at hget
      exact hInv i s hget
    | some coin =>
      simp only [hfind] at hget
      rcases jget_jset_cases _ _ _ _ _ hget with ⟨rfl, rfl⟩ | h'
      · exact hb
      · exact hInv i s h'
  · simp [jget]

theorem geckoFold_adapterInv (m : List (String × String))
    (marketData : List MarketCoin) (symbols : List String)
    (hm : ∀ i s, jget m i = some s → s ∈ symbols) :
    adapterInv symbols (geckoFold m marketData) := by
  simp only [geckoFold]
  refine foldl_inv (adapterInv symbols) _ ?_ [] (adapterInv_nil symbols)
  intro prices coin _ hInv
  cases hget : jget m coin.id with
  | none => simpa only [hget] using hInv
  | some symbol =>
    cases hp : coin.current_price with
    | none => simpa only [hget, hp] using hInv
    | some p =>
      simp only [hget, hp]
      by_cases hcond : symbol ≠ "" ∧ 0 < p
      · rw [if_pos hcond]
        exact adapterInv_jset symbols prices symbol _ hInv
          (hm coin.id symbol hget) hcond.2
      · rw [if_neg hcond]
        exact hInv

theorem tryCoinGecko_adapterInv (net : Net)
    (cache : Option (List CoinGeckoCoin)) (symbols : List String) :
    adapterInv symbols (tryCoinGecko net cache symbols).1 := by
  rw [tryCoinGecko]
  by_cases h0 : symbols.length = 0
  · rw [if_pos h0]; exact adapterInv_nil symbols
  · rw [if_neg h0]
    by_cases h1 : (geckoScan (getCoinGeckoList net cache).1 symbols).2.length = 0
    · simp only [if_pos h1]; exact adapterInv_nil symbols
    · simp only [if_neg h1]
      cases hresp : net.coinGeckoMarketsResp with
      | none => exact adapterInv_nil symbols
      | some marketData =>
        exact geckoFold_adapterInv _ marketData symbols
          (geckoScan_values (getCoinGeckoList net cache).1 symbols)

theorem cmcFold_adapterInv (data : String → Option CmcQuote)
    (symbols : List String) : adapterInv symbols (cmcFold data symbols) := by
  simp only [cmcFold]
  refine foldl_inv (adapterInv symbols) _ ?_ [] (adapterInv_nil symbols)
  intro prices symbol hb hInv
  cases hd : data (jsToUpper symbol) with
  | none => simpa only [hd] using hInv
  | some coinData =>
    cases hp : coinData.price with
    | none => simpa only [hd, hp] using hInv
    | some p =>
      simp only [hd, hp]
      by_cases hpos : 0 < p
      · rw [if_pos hpos]
        exact adapterInv_jset symbols prices symbol _ hInv hb hpos
      · rw [if_neg hpos]
        exact hInv

theorem tryCoinMarketCap_adapterInv (net : Net) (symbols : List String) :
    adapterInv symbols (tryCoinMarketCap net symbols).1 := by
  rw [tryCoinMarketCap]
  by_cases h0 : symbols.length = 0
  · rw [if_pos h0]; exact adapterInv_nil symbols
  · rw [if_neg h0]
    by_cases hk : jsTruthyStr net.cmcApiKey = false
    · rw [if_pos hk]; exact adapterInv_nil symbols
    · rw [if_neg hk]
      cases hresp : net.cmcResp with
      | none => exact adapterInv_nil symbols
      | some data => exact cmcFold_adapterInv data symbols

theorem ccFold_adapterInv (raw : String → Option Rat)
    (symbols : List String) : adapterInv symbols (ccFold raw symbols) := by
  simp only [ccFold]
  refine foldl_inv (adapterInv symbols) _ ?_ [] (adapterInv_nil symbols)
  intro prices symbol hb hInv
  cases hd : raw (jsToUpper symbol) with
  | none => simpa only [hd] using hInv
  | some p =>
    simp only [hd]
    by_cases hpos : 0 < p
    · rw [if_pos hpos]
      exact adapterInv_jset symbols prices symbol _ hInv hb hpos
    · rw [if_neg hpos]
      exact hInv

theorem tryCryptoCompare_adapterInv (net : Net) (symbols : List String) :
    adapterInv symbols (tryCryptoCompare net symbols).1 := by
  rw [tryCryptoCompare]
  by_cases h0 : symbols.length = 0
  · rw [if_pos h0]; exact adapterInv_nil symbols
  · rw [if_neg h0]
    cases hresp : net.ccResp with
    | none => exact adapterInv_nil symbols
    | some rawOpt =>
      cases rawOpt with
      | none => exact adapterInv_nil symbols
      | some raw => exact ccFold_adapterInv raw symbols

theorem kaikoFold_adapterInv (net : Net) (symbols : List String) :
    adapterInv symbols (kaikoFold net symbols).1 := by
  simp only [kaikoFold]
  refine foldl_inv
    (fun acc : PriceResult × List Ev => adapterInv symbols acc.1) _ ?_
    ([], []) (adapterInv_nil symbols)
  intro acc symbol hb hInv
  cases hd : net.kaikoResp (jsToLower symbol) with
  | none => simpa only [hd] using hInv
  | some priceOpt =>
    cases priceOpt with
    | none => simpa only [hd] using hInv
    | some p =>
      simp only [hd]
      by_cases hpos : 0 < p
      · rw [if_pos hpos]
        exact adapterInv_jset symbols acc.1 symbol _ hInv hb hpos
      · rw [if_neg hpos]
        exact hInv

theorem tryKaiko_adapterInv (net : Net) (symbols : List String) :
    adapterInv symbols (tryKaiko net symbols).1 := by
  rw [tryKaiko]
  by_cases h0 : symbols.length = 0
  · rw [if_pos h0]; exact adapterInv_nil symbols
  · rw [if_neg h0]
    by_cases hk : jsTruthyStr net.kaikoApiKey = false
    · rw [if_pos hk]; exact adapterInv_nil symbols
    · rw [if_neg hk]
      exact kaikoFold_adapterInv net symbols

/- ===================== Orchestrator invariants ===================== -/

theorem jget_of_mem_nodup {α : Type} (r : List (String × α)) :
    ∀ p ∈ r, (keys r).Nodup → jget r p.1 = some p.2 := by
  induction r with
  | nil => simp
  | cons q r ih =>
    intro p hp hnd
    simp only [keys, List.map_cons, List.nodup_cons] at hnd
    rcases List.mem_cons.mp hp with rfl | hp'
    · simp [jget]
    · rw [jget]
      rw [if_neg ?_]
      · exact ih p hp' hnd.2
      · simp only [beq_iff_eq]
        intro hq
        exact hnd.1 (hq ▸ List.mem_map_of_mem Prod.fst hp')

theorem jhas_jassign_mono {α : Type} (dst src : List (String × α))
    (k : String) (h : jhas dst k = true) : jhas (jassign dst src) k = true := by
  rw [jhas_iff] at h ⊢
  rw [mem_keys_jassign]
  exact Or.inl h

/-- The orchestrator loop invariant: unique positive-priced keys drawn from
the deduplicated input, with remainingSymbols exactly the deduplicated input
symbols not yet present in finalPrices. -/
def orchInv (assetSymbols : List String) (st : OrchState) : Prop :=
  (keys st.finalPrices).Nodup ∧
    (∀ k, k ∈ keys st.finalPrices → k ∈ jsDedup assetSymbols) ∧
    (∀ k q, jget st.finalPrices k = some q → 0 < q.usd) ∧
    st.remainingSymbols =
      (jsDedup assetSymbols).filter (fun s => !jhas st.finalPrices s)

theorem orchInv_merge (assetSymbols : List String) (final : PriceResult)
    (src : PriceResult) (remaining : List String)
    (hnd : (keys final).Nodup)
    (hsub : ∀ k, k ∈ keys final → k ∈ jsDedup assetSymbols)
    (hpos : ∀ k q, jget final k = some q → 0 < q.usd)
    (hrem : remaining = (jsDedup assetSymbols).filter (fun s => !jhas final s))
    (hadp : adapterInv remaining src) :
    (keys (jassign final src)).Nodup ∧
      (∀ k, k ∈ keys (jassign final src) → k ∈ jsDedup assetSymbols) ∧
      (∀ k q, jget (jassign final src) k = some q → 0 < q.usd) ∧
      remaining.filter (fun s => !jhas (jassign final src) s) =
        (jsDedup assetSymbols).filter (fun s => !jhas (jassign final src) s) := by
  obtain ⟨ha1, ha2, ha3⟩ := hadp
  refine ⟨nodup_keys_jassign src final hnd, ?_, ?_, ?_⟩
  · intro k hk
    rcases (mem_keys_jassign src final k).mp hk with hk' | hk'
    · exact hsub k hk'
    · have : k ∈ remaining := ha1 k hk'
      rw [hrem] at this
      exact (List.mem_filter.mp this).1
  · intro k q hq
    rcases jget_jassign_cases src final k q hq with h' | ⟨p, hp, rfl⟩
    · exact hpos k q h'
    · exact ha3 p.1 p.2 (jget_of_mem_nodup src p hp ha2)
  · rw [hrem, List.filter_filter]
    refine List.filter_congr ?_
    intro s _
    cases hnew : jhas (jassign final src) s with
    | true => simp
    | false =>
      have : jhas final s = false := by
        cases hold : jhas final s with
        | false => rfl
        | true => rw [jhas_jassign_mono final src s hold] at hnew; exact hnew
      simp [this]

theorem orchInv_afterCoinGecko (net : Net)
    (cache : Option (List CoinGeckoCoin)) (assetSymbols : List String) :
    orchInv assetSymbols (afterCoinGecko net cache assetSymbols) := by
  have hadp := tryCoinGecko_adapterInv net cache (jsDedup assetSymbols)
  have h := orchInv_merge assetSymbols [] (tryCoinGecko net cache
    (jsDedup assetSymbols)).1 (jsDedup assetSymbols)
    (by simp [keys]) (by simp [keys]) (by simp [jget])
    (by
      refine (List.filter_eq_self.mpr ?_).symm
      intro s _
      simp [jhas]) hadp
  simp only [orchInv, afterCoinGecko]
  exact ⟨h.1, h.2.1, h.2.2.1, trivial⟩

theorem orchInv_orchStep (assetSymbols : List String) (st : OrchState)
    (prov : List String → PriceResult × List Ev)
    (h : orchInv assetSymbols st)
    (hadp : adapterInv st.remainingSymbols (prov st.remainingSymbols).1) :
    orchInv assetSymbols (orchStep st prov) := by
  obtain ⟨h1, h2, h3, h4⟩ := h
  rw [orchStep]
  by_cases hg : st.remainingSymbols.length > 0
  · rw [if_pos hg]
    have hm := orchInv_merge assetSymbols st.finalPrices
      (prov st.remainingSymbols).1 st.remainingSymbols h1 h2 h3 h4 hadp
    exact ⟨hm.1, hm.2.1, hm.2.2.1, hm.2.2.2⟩
  · rw [if_neg hg]
    exact ⟨h1, h2, h3, h4⟩

theorem orchInv_afterCoinMarketCap (net : Net)
    (cache : Option (List CoinGeckoCoin)) (assetSymbols : List String) :
    orchInv assetSymbols (afterCoinMarketCap net cache assetSymbols) :=
  orchInv_orchStep assetSymbols _ _
    (orchInv_afterCoinGecko net cache assetSymbols)
    (tryCoinMarketCap_adapterInv net _)

theorem orchInv_afterCryptoCompare (net : Net)
    (cache : Option (List CoinGeckoCoin)) (assetSymbols : List String) :
    orchInv assetSymbols (afterCryptoCompare net cache assetSymbols) :=
  orchInv_orchStep assetSymbols _ _
    (orchInv_afterCoinMarketCap net cache assetSymbols)
    (tryCryptoCompare_adapterInv net _)

theorem orchInv_afterKaiko (net : Net)
    (cache : Option (List CoinGeckoCoin)) (assetSymbols : List String) :
    orchInv assetSymbols (afterKaiko net cache assetSymbols) :=
  orchInv_orchStep assetSymbols _ _
    (orchInv_afterCryptoCompare net cache assetSymbols)
    (tryKaiko_adapterInv net _)

theorem orchStep_cache (st : OrchState)
    (prov : List String → PriceResult × List Ev) :
    (orchStep st prov).cache = st.cache := by
  rw [orchStep]
  by_cases hg : st.remainingSymbols.length > 0
  · rw [if_pos hg]
  · rw [if_neg hg]

theorem orchStep_skip (st : OrchState)
    (prov : List String → PriceResult × List Ev)
    (h : st.remainingSymbols = []) : orchStep st prov = st := by
  rw [orchStep, if_neg (by simp [h])]

theorem fetch_keySpec (net : Net) (cache : Option (List CoinGeckoCoin))
    (assetSymbols : List String) :
    (keys (fetchCryptoPrices net cache assetSymbols).1).Nodup ∧
      ∀ s, s ∈ keys (fetchCryptoPrices net cache assetSymbols).1 ↔
        s ∈ assetSymbols := by
  obtain ⟨h1, h2, h3, h4⟩ := orchInv_afterKaiko net cache assetSymbols
  constructor
  · exact nodup_keys_zeroFill _ _ h1
  · intro s
    show s ∈ keys (zeroFill _ _) ↔ _
    rw [mem_keys_zeroFill]
    constructor
    · rintro (h | h)
      · exact (mem_jsDedup s assetSymbols).mp (h2 s h)
      · rw [h4] at h
        exact (mem_jsDedup s assetSymbols).mp (List.mem_filter.mp h).1
    · intro hs
      have hd := (mem_jsDedup s assetSymbols).mpr hs
      cases hh : jhas (afterKaiko net cache assetSymbols).finalPrices s with
      | true => exact Or.inl ((jhas_iff _ s).mp hh)
      | false =>
        refine Or.inr ?_
        rw [h4]
        exact List.mem_filter.mpr ⟨hd, by simp [hh]⟩

theorem remaining_not_in_final (net : Net)
    (cache : Option (List CoinGeckoCoin)) (assetSymbols : List String) :
    ∀ s ∈ (afterKaiko net cache assetSymbols).remainingSymbols,
      s ∉ keys (afterKaiko net cache assetSymbols).finalPrices := by
  obtain ⟨_, _, _, h4⟩ := orchInv_afterKaiko net cache assetSymbols
  intro s hs
  rw [h4] at hs
  have := (List.mem_filter.mp hs).2
  simp only [Bool.not_eq_eq_eq_not, Bool.not_true] at this
  rw [← jhas_false_iff]
  simpa using this

theorem remaining_nodup (net : Net) (cache : Option (List CoinGeckoCoin))
    (assetSymbols : List String) :
    (afterKaiko net cache assetSymbols).remainingSymbols.Nodup := by
  obtain ⟨_, _, _, h4⟩ := orchInv_afterKaiko net cache assetSymbols
  rw [h4]
  exact (nodup_jsDedup assetSymbols).filter _

theorem fetch_remaining_zero (net : Net)
    (cache : Option (List CoinGeckoCoin)) (assetSymbols : List String) :
    ∀ s ∈ (afterKaiko net cache assetSymbols).remainingSymbols,
      jget (fetchCryptoPrices net cache assetSymbols).1 s =
        some { usd := 0, usd_7d_change := 0 } := by
  intro s hs
  exact zeroFill_get_mem _ _ (remaining_nodup net cache assetSymbols)
    (remaining_not_in_final net cache assetSymbols) s hs

theorem fetch_values (net : Net) (cache : Option (List CoinGeckoCoin))
    (assetSymbols : List String) (k : String) (q : PriceData)
    (h : jget (fetchCryptoPrices net cache assetSymbols).1 k = some q) :
    0 < q.usd ∨ q = { usd := 0, usd_7d_change := 0 } := by
  obtain ⟨_, _, h3, _⟩ := orchInv_afterKaiko net cache assetSymbols
  rcases zeroFill_values _ _ k q h with h' | h'
  · exact Or.inl (h3 k q h')
  · exact Or.inr h'

theorem orchStep_preserve (assetSymbols : List String) (st : OrchState)
    (prov : List String → PriceResult × List Ev) (X : String)
    (hinv : orchInv assetSymbols st)
    (hadp : adapterInv st.remainingSymbols (prov st.remainingSymbols).1)
    (hX : X ∈ keys st.finalPrices) :
    jget (orchStep st prov).finalPrices X = jget st.finalPrices X ∧
      X ∈ keys (orchStep st prov).finalPrices := by
  rw [orchStep]
  by_cases hg : st.remainingSymbols.length > 0
  · rw [if_pos hg]
    have hnot : X ∉ keys (prov st.remainingSymbols).1 := by
      intro hmem
      have hrem := hadp.1 X hmem
      rw [hinv.2.2.2] at hrem
      have := (List.mem_filter.mp hrem).2
      rw [(jhas_iff st.finalPrices X).mpr hX] at this
      simp at this
    refine ⟨jget_jassign_not_mem _ _ _ hnot, ?_⟩
    rw [mem_keys_jassign]
    exact Or.inl hX
  · rw [if_neg hg]
    exact ⟨rfl, hX⟩

theorem orchStep_new (st : OrchState)
    (prov : List String → PriceResult × List Ev) (X : String)
    (hadp : adapterInv st.remainingSymbols (prov st.remainingSymbols).1)
    (hX : X ∈ keys (prov st.remainingSymbols).1) :
    jget (orchStep st prov).finalPrices X =
      jget (prov st.remainingSymbols).1 X ∧
      X ∈ keys (orchStep st prov).finalPrices := by
  have hrem : X ∈ st.remainingSymbols := hadp.1 X hX
  have hg : st.remainingSymbols.length > 0 :=
    List.length_pos.mpr (List.ne_nil_of_mem hrem)
  rw [orchStep, if_pos hg]
  refine ⟨jget_jassign_mem _ _ X hadp.2.1 hX, ?_⟩
  rw [mem_keys_jassign]
  exact Or.inr hX

theorem zeroFill_preserve (net : Net) (cache : Option (List CoinGeckoCoin))
    (assetSymbols : List String) (X : String)
    (hX : X ∈ keys (afterKaiko net cache assetSymbols).finalPrices) :
    jget (fetchCryptoPrices net cache assetSymbols).1 X =
      jget (afterKaiko net cache assetSymbols).finalPrices X := by
  refine zeroFill_get_not_mem _ _ X ?_
  intro hmem
  exact remaining_not_in_final net cache assetSymbols X hmem hX

theorem preserve_afterKaiko (net : Net) (cache : Option (List CoinGeckoCoin))
    (assetSymbols : List String) (X : String)
    (hX : X ∈ keys (afterKaiko net cache assetSymbols).finalPrices) :
    jget (fetchCryptoPrices net cache assetSymbols).1 X =
      jget (afterKaiko net cache assetSymbols).finalPrices X :=
  zeroFill_preserve net cache assetSymbols X hX

theorem preserve_afterCryptoCompare (net : Net)
    (cache : Option (List CoinGeckoCoin)) (assetSymbols : List String)
    (X : String)
    (hX : X ∈ keys (afterCryptoCompare net cache assetSymbols).finalPrices) :
    jget (fetchCryptoPrices net cache assetSymbols).1 X =
      jget (afterCryptoCompare net cache assetSymbols).finalPrices X := by
  have h4 := orchStep_preserve assetSymbols
    (afterCryptoCompare net cache assetSymbols) (tryKaiko net) X
    (orchInv_afterCryptoCompare net cache assetSymbols)
    (tryKaiko_adapterInv net _) hX
  rw [preserve_afterKaiko net cache assetSymbols X h4.2]
  exact h4.1

theorem preserve_afterCoinMarketCap (net : Net)
    (cache : Option (List CoinGeckoCoin)) (assetSymbols : List String)
    (X : String)
    (hX : X ∈ keys (afterCoinMarketCap net cache assetSymbols).finalPrices) :
    jget (fetchCryptoPrices net cache assetSymbols).1 X =
      jget (afterCoinMarketCap net cache assetSymbols).finalPrices X := by
  have h3 := orchStep_preserve assetSymbols
    (afterCoinMarketCap net cache assetSymbols) (tryCryptoCompare net) X
    (orchInv_afterCoinMarketCap net cache assetSymbols)
    (tryCryptoCompare_adapterInv net _) hX
  rw [preserve_afterCryptoCompare net cache assetSymbols X h3.2]
  exact h3.1

theorem preserve_afterCoinGecko (net : Net)
    (cache : Option (List CoinGeckoCoin)) (assetSymbols : List String)
    (X : String)
    (hX : X ∈ keys (afterCoinGecko net cache assetSymbols).finalPrices) :
    jget (fetchCryptoPrices net cache assetSymbols).1 X =
      jget (afterCoinGecko net cache assetSymbols).finalPrices X := by
  have h2 := orchStep_preserve assetSymbols
    (afterCoinGecko net cache assetSymbols) (tryCoinMarketCap net) X
    (orchInv_afterCoinGecko net cache assetSymbols)
    (tryCoinMarketCap_adapterInv net _) hX
  rw [preserve_afterCoinMarketCap net cache assetSymbols X h2.2]
  exact h2.1

/- ===================== Claim theorems ===================== -/

/-- C1: for every input identifier list, and any upstream world and cache
state (hence regardless of which providers resolve or fail),
fetchCryptoPrices returns a mapping whose key set is exactly the set of
distinct (case-sensitive) input identifiers: the keys are pairwise distinct,
and a key occurs in the result iff it occurs in the input list. -/
theorem fetchCryptoPrices_complete (net : Net)
    (cache : Option (List CoinGeckoCoin)) (assetSymbols : List String) :
    (keys (fetchCryptoPrices net cache assetSymbols).1).Nodup ∧
      ∀ s, s ∈ keys (fetchCryptoPrices net cache assetSymbols).1 ↔
        s ∈ assetSymbols :=
  fetch_keySpec net cache assetSymbols

/-- C4: for every provider adapter, every requested identifier set and every
upstream response, every entry of the adapter's returned mapping has a
strictly positive price; an identifier whose parsed price is absent,
non-numeric or non-positive is omitted rather than included with an invalid
value. -/
theorem adapters_positive (net : Net) (cache : Option (List CoinGeckoCoin))
    (symbols : List String) (k : String) (q : PriceData) :
    (jget (tryCoinGecko net cache symbols).1 k = some q → 0 < q.usd) ∧
      (jget (tryCoinMarketCap net symbols).1 k = some q → 0 < q.usd) ∧
      (jget (tryCryptoCompare net symbols).1 k = some q → 0 < q.usd) ∧
      (jget (tryKaiko net symbols).1 k = some q → 0 < q.usd) :=
  ⟨(tryCoinGecko_adapterInv net cache symbols).2.2 k q,
    (tryCoinMarketCap_adapterInv net symbols).2.2 k q,
    (tryCryptoCompare_adapterInv net symbols).2.2 k q,
    (tryKaiko_adapterInv net symbols).2.2 k q⟩

/-- Witness for C4: in the world geckoNet, the CoinGecko adapter resolves
BTC at 50000, and the theorem yields the positivity of that entry. -/
theorem adapters_positive_witness :
    jget (tryCoinGecko geckoNet none ["BTC"]).1 "BTC" =
      some { usd := 50000, usd_7d_change := 3 } ∧
      0 < ({ usd := 50000, usd_7d_change := 3 } : PriceData).usd :=
  ⟨by decide, (adapters_positive geckoNet none ["BTC"] "BTC"
    { usd := 50000, usd_7d_change := 3 }).1 (by decide)⟩

/-- C10: every value of the mapping returned by fetchCryptoPrices has a
non-negative price, and a value with price zero is exactly the placeholder
quote, so provider-resolved entries are exactly those with positive price. -/
theorem fetchCryptoPrices_values (net : Net)
    (cache : Option (List CoinGeckoCoin)) (assetSymbols : List String)
    (k : String) (q : PriceData)
    (h : jget (fetchCryptoPrices net cache assetSymbols).1 k = some q) :
    0 ≤ q.usd ∧ (q.usd = 0 → q = { usd := 0, usd_7d_change := 0 }) := by
  rcases fetch_values net cache assetSymbols k q h with h' | rfl
  · exact ⟨le_of_lt h', fun h0 => absurd h0 (ne_of_gt h')⟩
  · exact ⟨le_refl 0, fun _ => rfl⟩

/-- Witness for C10: in the all-providers-down world, BTC resolves to the
zero placeholder, whose price is non-negative and which is the placeholder. -/
theorem fetchCryptoPrices_values_witness :
    jget (fetchCryptoPrices failNet none ["BTC"]).1 "BTC" =
      some { usd := 0, usd_7d_change := 0 } ∧
      0 ≤ ({ usd := 0, usd_7d_change := 0 } : PriceData).usd :=
  ⟨by decide, (fetchCryptoPrices_values failNet none ["BTC"] "BTC"
    { usd := 0, usd_7d_change := 0 } (by decide)).1⟩

/-- C3: first-successful-provider wins.  For every provider rank, if that
provider's partial result (on the residual symbol set it is actually invoked
with) contains identifier X, then the final mapping's entry for X is exactly
that partial result's entry: no later provider and no placeholder fill ever
overwrites it.  Together with the rank ordering this means the earliest
resolving provider's price is the one returned. -/
theorem fetchCryptoPrices_priority (net : Net)
    (cache : Option (List CoinGeckoCoin)) (assetSymbols : List String)
    (X : String) :
    (X ∈ keys (tryCoinGecko net cache (jsDedup assetSymbols)).1 →
      jget (fetchCryptoPrices net cache assetSymbols).1 X =
        jget (tryCoinGecko net cache (jsDedup assetSymbols)).1 X) ∧
      (X ∈ keys (tryCoinMarketCap net
          (afterCoinGecko net cache assetSymbols).remainingSymbols).1 →
        jget (fetchCryptoPrices net cache assetSymbols).1 X =
          jget (tryCoinMarketCap net
            (afterCoinGecko net cache assetSymbols).remainingSymbols).1 X) ∧
      (X ∈ keys (tryCryptoCompare net
          (afterCoinMarketCap net cache assetSymbols).remainingSymbols).1 →
        jget (fetchCryptoPrices net cache assetSymbols).1 X =
          jget (tryCryptoCompare net
            (afterCoinMarketCap net cache assetSymbols).remainingSymbols).1 X) ∧
      (X ∈ keys (tryKaiko net
          (afterCryptoCompare net cache assetSymbols).remainingSymbols).1 →
        jget (fetchCryptoPrices net cache assetSymbols).1 X =
          jget (tryKaiko net
            (afterCryptoCompare net cache assetSymbols).remainingSymbols).1 X) := by
  refine ⟨?_, ?_, ?_, ?_⟩
  · intro hX
    have hadp := tryCoinGecko_adapterInv net cache (jsDedup assetSymbols)
    have h1a : jget (afterCoinGecko net cache assetSymbols).finalPrices X =
        jget (tryCoinGecko net cache (jsDedup assetSymbols)).1 X :=
      jget_jassign_mem _ [] X hadp.2.1 hX
    have h1b : X ∈ keys (afterCoinGecko net cache assetSymbols).finalPrices := by
      show X ∈ keys (jassign [] _)
      rw [mem_keys_jassign]
      exact Or.inr hX
    rw [preserve_afterCoinGecko net cache assetSymbols X h1b, h1a]
  · intro hX
    have h := orchStep_new (afterCoinGecko net cache assetSymbols)
      (tryCoinMarketCap net) X (tryCoinMarketCap_adapterInv net _) hX
    rw [preserve_afterCoinMarketCap net cache assetSymbols X h.2]
    exact h.1
  · intro hX
    have h := orchStep_new (afterCoinMarketCap net cache assetSymbols)
      (tryCryptoCompare net) X (tryCryptoCompare_adapterInv net _) hX
    rw [preserve_afterCryptoCompare net cache assetSymbols X h.2]
    exact h.1
  · intro hX
    have h := orchStep_new (afterCryptoCompare net cache assetSymbols)
      (tryKaiko net) X (tryKaiko_adapterInv net _) hX
    rw [preserve_afterKaiko net cache assetSymbols X h.2]
    exact h.1

/-- Witness for C3: in the world geckoNet, provider 1 resolves BTC, and the
final result equals provider 1's entry for BTC. -/
theorem fetchCryptoPrices_priority_witness :
    "BTC" ∈ keys (tryCoinGecko geckoNet none (jsDedup ["BTC"])).1 ∧
      jget (fetchCryptoPrices geckoNet none ["BTC"]).1 "BTC" =
        jget (tryCoinGecko geckoNet none (jsDedup ["BTC"])).1 "BTC" :=
  ⟨by decide, (fetchCryptoPrices_priority geckoNet none ["BTC"] "BTC").1
    (by decide)⟩

/- ============ Failure-mode lemmas and claims C2, C7 ============ -/

theorem foldl_id {α β : Type} (f : α → β → α) (hf : ∀ a b, f a b = a) :
    ∀ (l : List β) (a : α), l.foldl f a = a := by
  intro l
  induction l with
  | nil => intro a; rfl
  | cons b l ih =>
    intro a
    rw [List.foldl_cons, hf]
    exact ih a

theorem geckoScan_nil (symbols : List String) :
    geckoScan [] symbols = ([], []) := by
  simp only [geckoScan]
  exact foldl_id _ (fun a b => rfl) symbols ([], [])

theorem tryCoinGecko_fail (net : Net) (cache : Option (List CoinGeckoCoin))
    (symbols : List String)
    (h : (cache = none ∧ net.coinGeckoListResp = none) ∨
      net.coinGeckoMarketsResp = none) :
    (tryCoinGecko net cache symbols).1 = [] := by
  rw [tryCoinGecko]
  by_cases h0 : symbols.length = 0
  · rw [if_pos h0]
  · rw [if_neg h0]
    by_cases h1 :
        (geckoScan (getCoinGeckoList net cache).1 symbols).2.length = 0
    · simp only [if_pos h1]
    · simp only [if_neg h1]
      rcases h with ⟨hc, hl⟩ | hm
      · exfalso
        apply h1
        subst hc
        have hg : getCoinGeckoList net none = ([], none, [Ev.reqGeckoList]) := by
          simp only [getCoinGeckoList, hl]
        rw [hg, geckoScan_nil]
        rfl
      · simp only [hm]

theorem tryCoinMarketCap_fail (net : Net) (symbols : List String)
    (h : net.cmcApiKey = none ∨ net.cmcResp = none) :
    (tryCoinMarketCap net symbols).1 = [] := by
  rw [tryCoinMarketCap]
  by_cases h0 : symbols.length = 0
  · rw [if_pos h0]
  · rw [if_neg h0]
    rcases h with hk | hr
    · rw [if_pos (by rw [hk]; rfl)]
    · by_cases hk2 : jsTruthyStr net.cmcApiKey = false
      · rw [if_pos hk2]
      · rw [if_neg hk2]
        simp only [hr]

theorem tryCryptoCompare_fail (net : Net) (symbols : List String)
    (h : net.ccResp = none) : (tryCryptoCompare net symbols).1 = [] := by
  rw [tryCryptoCompare]
  by_cases h0 : symbols.length = 0
  · rw [if_pos h0]
  · rw [if_neg h0]
    simp only [h]

theorem kaikoFold_resp_none (net : Net) (symbols : List String)
    (h : ∀ s, net.kaikoResp s = none) : (kaikoFold net symbols).1 = [] := by
  simp only [kaikoFold]
  refine foldl_inv (fun acc : PriceResult × List Ev => acc.1 = []) _ ?_
    ([], []) rfl
  intro acc b _ hInv
  simp only [h (jsToLower b)]
  exact hInv

theorem tryKaiko_fail (net : Net) (symbols : List String)
    (h : net.kaikoApiKey = none ∨ ∀ s, net.kaikoResp s = none) :
    (tryKaiko net symbols).1 = [] := by
  rw [tryKaiko]
  by_cases h0 : symbols.length = 0
  · rw [if_pos h0]
  · rw [if_neg h0]
    rcases h with hk | hr
    · rw [if_pos (by rw [hk]; rfl)]
    · by_cases hk2 : jsTruthyStr net.kaikoApiKey = false
      · rw [if_pos hk2]
      · rw [if_neg hk2]
        exact kaikoFold_resp_none net symbols hr

theorem orchStep_nothing (assetSymbols : List String) (st : OrchState)
    (prov : List String → PriceResult × List Ev)
    (hinv : orchInv assetSymbols st)
    (h : (prov st.remainingSymbols).1 = []) :
    (orchStep st prov).finalPrices = st.finalPrices ∧
      (orchStep st prov).remainingSymbols = st.remainingSymbols := by
  rw [orchStep]
  by_cases hg : st.remainingSymbols.length > 0
  · rw [if_pos hg]
    have hfin : jassign st.finalPrices (prov st.remainingSymbols).1 =
        st.finalPrices := by
      rw [h]
      rfl
    refine ⟨hfin, ?_⟩
    show st.remainingSymbols.filter _ = st.remainingSymbols
    refine List.filter_eq_self.mpr ?_
    intro s hs
    rw [hfin]
    rw [hinv.2.2.2] at hs
    exact (List.mem_filter.mp hs).2
  · rw [if_neg hg]
    exact ⟨rfl, rfl⟩

/-- All four providers fail: the CoinGecko round fails (list fetch failing
with a cold cache, or the markets request failing), CoinMarketCap is
disabled or fails, CryptoCompare fails, Kaiko is disabled or fails on every
symbol. -/
def allProvidersFail (net : Net) (cache : Option (List CoinGeckoCoin)) :
    Prop :=
  ((cache = none ∧ net.coinGeckoListResp = none) ∨
      net.coinGeckoMarketsResp = none) ∧
    (net.cmcApiKey = none ∨ net.cmcResp = none) ∧
    net.ccResp = none ∧
    (net.kaikoApiKey = none ∨ ∀ s, net.kaikoResp s = none)

theorem fetch_allFail (net : Net) (cache : Option (List CoinGeckoCoin))
    (assetSymbols : List String) (h : allProvidersFail net cache) :
    ∀ s ∈ assetSymbols,
      jget (fetchCryptoPrices net cache assetSymbols).1 s =
        some { usd := 0, usd_7d_change := 0 } := by
  obtain ⟨hg, hc, hcc, hk⟩ := h
  have h1p : (afterCoinGecko net cache assetSymbols).finalPrices = [] := by
    show jassign [] (tryCoinGecko net cache (jsDedup assetSymbols)).1 = []
    rw [tryCoinGecko_fail net cache _ hg]
    rfl
  have h2 := orchStep_nothing assetSymbols
    (afterCoinGecko net cache assetSymbols) (tryCoinMarketCap net)
    (orchInv_afterCoinGecko net cache assetSymbols)
    (tryCoinMarketCap_fail net _ hc)
  have h3 := orchStep_nothing assetSymbols
    (afterCoinMarketCap net cache assetSymbols) (tryCryptoCompare net)
    (orchInv_afterCoinMarketCap net cache assetSymbols)
    (tryCryptoCompare_fail net _ hcc)
  have h4 := orchStep_nothing assetSymbols
    (afterCryptoCompare net cache assetSymbols) (tryKaiko net)
    (orchInv_afterCryptoCompare net cache assetSymbols)
    (tryKaiko_fail net _ hk)
  have hfp : (afterKaiko net cache assetSymbols).finalPrices = [] := by
    calc (afterKaiko net cache assetSymbols).finalPrices
        = (afterCryptoCompare net cache assetSymbols).finalPrices := h4.1
      _ = (afterCoinMarketCap net cache assetSymbols).finalPrices := h3.1
      _ = (afterCoinGecko net cache assetSymbols).finalPrices := h2.1
      _ = [] := h1p
  have hrm : (afterKaiko net cache assetSymbols).remainingSymbols =
      jsDedup assetSymbols := by
    have h1r : (afterCoinGecko net cache assetSymbols).remainingSymbols =
        jsDedup assetSymbols := by
      show (jsDedup assetSymbols).filter _ = _
      refine List.filter_eq_self.mpr ?_
      intro s _
      show (!jhas
        (jassign [] (tryCoinGecko net cache (jsDedup assetSymbols)).1) s) = true
      rw [tryCoinGecko_fail net cache _ hg]
      rfl
    calc (afterKaiko net cache assetSymbols).remainingSymbols
        = (afterCryptoCompare net cache assetSymbols).remainingSymbols := h4.2
      _ = (afterCoinMarketCap net cache assetSymbols).remainingSymbols := h3.2
      _ = (afterCoinGecko net cache assetSymbols).remainingSymbols := h2.2
      _ = jsDedup assetSymbols := h1r
  intro s hs
  show jget (zeroFill (afterKaiko net cache assetSymbols).finalPrices
    (afterKaiko net cache assetSymbols).remainingSymbols) s = _
  rw [hfp, hrm]
  exact zeroFill_get_mem _ _ (nodup_jsDedup assetSymbols)
    (by simp [keys]) s ((mem_jsDedup s assetSymbols).mpr hs)

/-- C2: fetchCryptoPrices is a total function of the upstream world (it
never raises: adapters convert every modelled failure into an empty partial
result), every identifier still unresolved after the last provider is
present in the result with exactly the zero placeholder, and when every
provider fails every requested identifier maps to the zero placeholder. -/
theorem fetchCryptoPrices_graceful (net : Net)
    (cache : Option (List CoinGeckoCoin)) (assetSymbols : List String) :
    (∀ s ∈ (afterKaiko net cache assetSymbols).remainingSymbols,
        jget (fetchCryptoPrices net cache assetSymbols).1 s =
          some { usd := 0, usd_7d_change := 0 }) ∧
      (allProvidersFail net cache →
        ∀ s ∈ assetSymbols,
          jget (fetchCryptoPrices net cache assetSymbols).1 s =
            some { usd := 0, usd_7d_change := 0 }) :=
  ⟨fetch_remaining_zero net cache assetSymbols,
    fetch_allFail net cache assetSymbols⟩

/-- Witness for C2: with every provider down, BTC gets the zero quote. -/
theorem fetchCryptoPrices_graceful_witness :
    jget (fetchCryptoPrices failNet none ["BTC"]).1 "BTC" =
      some { usd := 0, usd_7d_change := 0 } :=
  (fetchCryptoPrices_graceful failNet none ["BTC"]).2
    ⟨Or.inl ⟨rfl, rfl⟩, Or.inl rfl, rfl, Or.inl rfl⟩ "BTC" (by decide)

/-- A network request event (as opposed to an adapter-entry event). -/
def evIsReq : Ev → Bool
  | Ev.reqGeckoList => true
  | Ev.reqGeckoMarkets _ => true
  | Ev.reqCMC _ => true
  | Ev.reqCC _ => true
  | Ev.reqKaiko _ => true
  | _ => false

/-- C7: if the CoinMarketCap API key (rank 2) or the Kaiko bearer token
(rank 4) is absent, that adapter returns an empty mapping immediately and
its trace contains no upstream request; the call returns normally (skip,
not error). -/
theorem credentialAbsent_skip (net : Net) (symbols : List String) :
    (net.cmcApiKey = none →
      (tryCoinMarketCap net symbols).1 = [] ∧
        ∀ e ∈ (tryCoinMarketCap net symbols).2, evIsReq e = false) ∧
      (net.kaikoApiKey = none →
        (tryKaiko net symbols).1 = [] ∧
          ∀ e ∈ (tryKaiko net symbols).2, evIsReq e = false) := by
  constructor
  · intro hk
    rw [tryCoinMarketCap]
    by_cases h0 : symbols.length = 0
    · rw [if_pos h0]
      refine ⟨rfl, ?_⟩
      intro e he
      simp only [List.mem_singleton] at he
      subst he
      rfl
    · rw [if_neg h0, if_pos (by rw [hk]; rfl)]
      refine ⟨rfl, ?_⟩
      intro e he
      simp only [List.mem_singleton] at he
      subst he
      rfl
  · intro hk
    rw [tryKaiko]
    by_cases h0 : symbols.length = 0
    · rw [if_pos h0]
      refine ⟨rfl, ?_⟩
      intro e he
      simp only [List.mem_singleton] at he
      subst he
      rfl
    · rw [if_neg h0, if_pos (by rw [hk]; rfl)]
      refine ⟨rfl, ?_⟩
      intro e he
      simp only [List.mem_singleton] at he
      subst he
      rfl

/-- Witness for C7: in failNet both credentials are absent, and both
adapters return empty mappings on the request for BTC. -/
theorem credentialAbsent_skip_witness :
    (tryCoinMarketCap failNet ["BTC"]).1 = [] ∧
      (tryKaiko failNet ["BTC"]).1 = [] :=
  ⟨((credentialAbsent_skip failNet ["BTC"]).1 rfl).1,
    ((credentialAbsent_skip failNet ["BTC"]).2 rfl).1⟩

/- ============ Trace characterization and claim C5 ============ -/

theorem tryCoinGecko_trace (net : Net) (cache : Option (List CoinGeckoCoin))
    (symbols : List String) :
    ∀ e ∈ (tryCoinGecko net cache symbols).2.2,
      e = Ev.callGecko symbols ∨ e = Ev.reqGeckoList ∨
        ∃ ids, ids ≠ [] ∧ e = Ev.reqGeckoMarkets ids := by
  intro e he
  rw [tryCoinGecko] at he
  by_cases h0 : symbols.length = 0
  · rw [if_pos h0] at he
    simp only [List.mem_singleton] at he
    exact Or.inl he
  · rw [if_neg h0] at he
    have hgl : ∀ e2 ∈ (getCoinGeckoList net cache).2.2,
        e2 = Ev.reqGeckoList := by
      cases cache with
      | some l => simp [getCoinGeckoList]
      | none =>
        cases hr : net.coinGeckoListResp with
        | some d => simp [getCoinGeckoList, hr]
        | none => simp [getCoinGeckoList, hr]
    by_cases h1 :
        (geckoScan (getCoinGeckoList net cache).1 symbols).2.length = 0
    · simp only [if_pos h1] at he
      rcases List.mem_cons.mp he with rfl | he2
      · exact Or.inl rfl
      · exact Or.inr (Or.inl (hgl e he2))
    · simp only [if_neg h1] at he
      have hne : (geckoScan (getCoinGeckoList net cache).1 symbols).2 ≠ [] := by
        intro hnil
        exact h1 (by rw [hnil]; rfl)
      cases hm : net.coinGeckoMarketsResp with
      | none =>
        simp only [hm] at he
        rcases List.mem_cons.mp he with rfl | he2
        · exact Or.inl rfl
        · rcases List.mem_append.mp he2 with he3 | he3
          · exact Or.inr (Or.inl (hgl e he3))
          · simp only [List.mem_singleton] at he3
            exact Or.inr (Or.inr ⟨_, hne, he3⟩)
      | some marketData =>
        simp only [hm] at he
        rcases List.mem_cons.mp he with rfl | he2
        · exact Or.inl rfl
        · rcases List.mem_append.mp he2 with he3 | he3
          · exact Or.inr (Or.inl (hgl e he3))
          · simp only [List.mem_singleton] at he3
            exact Or.inr (Or.inr ⟨_, hne, he3⟩)

theorem tryCoinMarketCap_trace (net : Net) (symbols : List String) :
    ∀ e ∈ (tryCoinMarketCap net symbols).2,
      e = Ev.callCMC symbols ∨ (symbols ≠ [] ∧ e = Ev.reqCMC symbols) := by
  intro e he
  rw [tryCoinMarketCap] at he
  by_cases h0 : symbols.length = 0
  · rw [if_pos h0] at he
    simp only [List.mem_singleton] at he
    exact Or.inl he
  · rw [if_neg h0] at he
    have hne : symbols ≠ [] := by
      intro hnil
      exact h0 (by rw [hnil]; rfl)
    by_cases hk : jsTruthyStr net.cmcApiKey = false
    · rw [if_pos hk] at he
      simp only [List.mem_singleton] at he
      exact Or.inl he
    · rw [if_neg hk] at he
      cases hr : net.cmcResp with
      | none =>
        simp only [hr] at he
        rcases List.mem_cons.mp he with rfl | he2
        · exact Or.inl rfl
        · simp only [List.mem_singleton] at he2
          exact Or.inr ⟨hne, he2⟩
      | some data =>
        simp only [hr] at he
        rcases List.mem_cons.mp he with rfl | he2
        · exact Or.inl rfl
        · simp only [List.mem_singleton] at he2
          exact Or.inr ⟨hne, he2⟩

theorem tryCryptoCompare_trace (net : Net) (symbols : List String) :
    ∀ e ∈ (tryCryptoCompare net symbols).2,
      e = Ev.callCC symbols ∨ (symbols ≠ [] ∧ e = Ev.reqCC symbols) := by
  intro e he
  rw [tryCryptoCompare] at he
  by_cases h0 : symbols.length = 0
  · rw [if_pos h0] at he
    simp only [List.mem_singleton] at he
    exact Or.inl he
  · rw [if_neg h0] at he
    have hne : symbols ≠ [] := by
      intro hnil
      exact h0 (by rw [hnil]; rfl)
    cases hr : net.ccResp with
    | none =>
      simp only [hr] at he
      rcases List.mem_cons.mp he with rfl | he2
      · exact Or.inl rfl
      · simp only [List.mem_singleton] at he2
        exact Or.inr ⟨hne, he2⟩
    | some rawOpt =>
      cases rawOpt with
      | none =>
        simp only [hr] at he
        rcases List.mem_cons.mp he with rfl | he2
        · exact Or.inl rfl
        · simp only [List.mem_singleton] at he2
          exact Or.inr ⟨hne, he2⟩
      | some raw =>
        simp only [hr] at he
        rcases List.mem_cons.mp he with rfl | he2
        · exact Or.inl rfl
        · simp only [List.mem_singleton] at he2
          exact Or.inr ⟨hne, he2⟩

theorem kaikoFold_trace (net : Net) (symbols : List String) :
    ∀ e ∈ (kaikoFold net symbols).2, ∃ s ∈ symbols, e = Ev.reqKaiko s := by
  simp only [kaikoFold]
  refine foldl_inv
    (fun acc : PriceResult × List Ev =>
      ∀ e ∈ acc.2, ∃ s ∈ symbols, e = Ev.reqKaiko s) _ ?_ ([], []) (by simp)
  intro acc b hb hInv e he
  have hstep : ∀ he2 : e ∈ acc.2 ++ [Ev.reqKaiko b],
      ∃ s ∈ symbols, e = Ev.reqKaiko s := by
    intro he2
    rcases List.mem_append.mp he2 with h2 | h2
    · exact hInv e h2
    · simp only [List.mem_singleton] at h2
      exact ⟨b, hb, h2⟩
  cases hd : net.kaikoResp (jsToLower b) with
  | none =>
    simp only [hd] at he
    exact hstep he
  | some priceOpt =>
    cases priceOpt with
    | none =>
      simp only [hd] at he
      exact hstep he
    | some p =>
      simp only [hd] at he
      by_cases hp : 0 < p
      · rw [if_pos hp] at he
        exact hstep he
      · rw [if_neg hp] at he
        exact hstep he

theorem tryKaiko_trace (net : Net) (symbols : List String) :
    ∀ e ∈ (tryKaiko net symbols).2,
      e = Ev.callKaiko symbols ∨ ∃ s ∈ symbols, e = Ev.reqKaiko s := by
  intro e he
  rw [tryKaiko] at he
  by_cases h0 : symbols.length = 0
  · rw [if_pos h0] at he
    simp only [List.mem_singleton] at he
    exact Or.inl he
  · rw [if_neg h0] at he
    by_cases hk : jsTruthyStr net.kaikoApiKey = false
    · rw [if_pos hk] at he
      simp only [List.mem_singleton] at he
      exact Or.inl he
    · rw [if_neg hk] at he
      rcases List.mem_cons.mp he with rfl | he2
      · exact Or.inl rfl
      · exact Or.inr (kaikoFold_trace net symbols e he2)

theorem orchStep_trace (st : OrchState)
    (prov : List String → PriceResult × List Ev) :
    ∀ e ∈ (orchStep st prov).trace,
      e ∈ st.trace ∨ e ∈ (prov st.remainingSymbols).2 := by
  intro e he
  rw [orchStep] at he
  by_cases hg : st.remainingSymbols.length > 0
  · rw [if_pos hg] at he
    exact List.mem_append.mp he
  · rw [if_neg hg] at he
    exact Or.inl he

/-- Events belonging to the CoinMarketCap adapter. -/
def evIsCMC : Ev → Bool
  | Ev.callCMC _ => true
  | Ev.reqCMC _ => true
  | _ => false

/-- Events belonging to the CryptoCompare adapter. -/
def evIsCC : Ev → Bool
  | Ev.callCC _ => true
  | Ev.reqCC _ => true
  | _ => false

/-- Events belonging to the Kaiko adapter. -/
def evIsKaiko : Ev → Bool
  | Ev.callKaiko _ => true
  | Ev.reqKaiko _ => true
  | _ => false

/-- A batched upstream request carrying an empty identifier set. -/
def evEmptyReq : Ev → Bool
  | Ev.reqGeckoMarkets ids => ids.isEmpty
  | Ev.reqCMC symbols => symbols.isEmpty
  | Ev.reqCC symbols => symbols.isEmpty
  | _ => false

theorem gecko_trace_flags (net : Net) (cache : Option (List CoinGeckoCoin))
    (symbols : List String) :
    ∀ e ∈ (tryCoinGecko net cache symbols).2.2,
      evIsCMC e = false ∧ evIsCC e = false ∧ evIsKaiko e = false ∧
        evEmptyReq e = false := by
  intro e he
  rcases tryCoinGecko_trace net cache symbols e he with rfl | rfl | ⟨ids, hne, rfl⟩
  · exact ⟨rfl, rfl, rfl, rfl⟩
  · exact ⟨rfl, rfl, rfl, rfl⟩
  · refine ⟨rfl, rfl, rfl, ?_⟩
    show ids.isEmpty = false
    cases ids with
    | nil => exact absurd rfl hne
    | cons x l => rfl

theorem cmc_trace_flags (net : Net) (symbols : List String) :
    ∀ e ∈ (tryCoinMarketCap net symbols).2,
      evIsCC e = false ∧ evIsKaiko e = false ∧ evEmptyReq e = false := by
  intro e he
  rcases tryCoinMarketCap_trace net symbols e he with rfl | ⟨hne, rfl⟩
  · exact ⟨rfl, rfl, rfl⟩
  · refine ⟨rfl, rfl, ?_⟩
    show symbols.isEmpty = false
    cases symbols with
    | nil => exact absurd rfl hne
    | cons x l => rfl

theorem cc_trace_flags (net : Net) (symbols : List String) :
    ∀ e ∈ (tryCryptoCompare net symbols).2,
      evIsKaiko e = false ∧ evEmptyReq e = false := by
  intro e he
  rcases tryCryptoCompare_trace net symbols e he with rfl | ⟨hne, rfl⟩
  · exact ⟨rfl, rfl⟩
  · refine ⟨rfl, ?_⟩
    show symbols.isEmpty = false
    cases symbols with
    | nil => exact absurd rfl hne
    | cons x l => rfl

theorem kaiko_trace_flags (net : Net) (symbols : List String) :
    ∀ e ∈ (tryKaiko net symbols).2, evEmptyReq e = false := by
  intro e he
  rcases tryKaiko_trace net symbols e he with rfl | ⟨s, _, rfl⟩
  · rfl
  · rfl

theorem fetch_trace_split (net : Net) (cache : Option (List CoinGeckoCoin))
    (assetSymbols : List String) :
    ∀ e ∈ (fetchCryptoPrices net cache assetSymbols).2.2,
      e ∈ (tryCoinGecko net cache (jsDedup assetSymbols)).2.2 ∨
        e ∈ (tryCoinMarketCap net
          (afterCoinGecko net cache assetSymbols).remainingSymbols).2 ∨
        e ∈ (tryCryptoCompare net
          (afterCoinMarketCap net cache assetSymbols).remainingSymbols).2 ∨
        e ∈ (tryKaiko net
          (afterCryptoCompare net cache assetSymbols).remainingSymbols).2 := by
  intro e he
  have h4 := orchStep_trace (afterCryptoCompare net cache assetSymbols)
    (tryKaiko net) e he
  rcases h4 with h4 | h4
  · have h3 := orchStep_trace (afterCoinMarketCap net cache assetSymbols)
      (tryCryptoCompare net) e h4
    rcases h3 with h3 | h3
    · have h2 := orchStep_trace (afterCoinGecko net cache assetSymbols)
        (tryCoinMarketCap net) e h3
      rcases h2 with h2 | h2
      · exact Or.inl h2
      · exact Or.inr (Or.inl h2)
    · exact Or.inr (Or.inr (Or.inl h3))
  · exact Or.inr (Or.inr (Or.inr h4))

/-- C5 (amended): once the remaining-identifier set is empty after some
provider round, no later provider is invoked (no entry event, no request
event of a later adapter appears in the whole trace); and no batched
upstream request ever carries an empty identifier set.  (Provider 1 itself
is invoked unconditionally, even for an empty input, but then issues no
upstream request.) -/
theorem fetchCryptoPrices_shortcircuit (net : Net)
    (cache : Option (List CoinGeckoCoin)) (assetSymbols : List String) :
    ((afterCoinGecko net cache assetSymbols).remainingSymbols = [] →
      ∀ e ∈ (fetchCryptoPrices net cache assetSymbols).2.2,
        evIsCMC e = false ∧ evIsCC e = false ∧ evIsKaiko e = false) ∧
      ((afterCoinMarketCap net cache assetSymbols).remainingSymbols = [] →
        ∀ e ∈ (fetchCryptoPrices net cache assetSymbols).2.2,
          evIsCC e = false ∧ evIsKaiko e = false) ∧
      ((afterCryptoCompare net cache assetSymbols).remainingSymbols = [] →
        ∀ e ∈ (fetchCryptoPrices net cache assetSymbols).2.2,
          evIsKaiko e = false) ∧
      (∀ e ∈ (fetchCryptoPrices net cache assetSymbols).2.2,
        evEmptyReq e = false) := by
  refine ⟨?_, ?_, ?_, ?_⟩
  · intro hr e he
    have e2 : afterCoinMarketCap net cache assetSymbols =
        afterCoinGecko net cache assetSymbols :=
      orchStep_skip _ _ hr
    have e3 : afterCryptoCompare net cache assetSymbols =
        afterCoinMarketCap net cache assetSymbols :=
      orchStep_skip _ _ (by rw [e2]; exact hr)
    have e4 : afterKaiko net cache assetSymbols =
        afterCryptoCompare net cache assetSymbols :=
      orchStep_skip _ _ (by rw [e3, e2]; exact hr)
    have htr : (fetchCryptoPrices net cache assetSymbols).2.2 =
        (tryCoinGecko net cache (jsDedup assetSymbols)).2.2 := by
      show (afterKaiko net cache assetSymbols).trace = _
      rw [e4, e3, e2]
      rfl
    rw [htr] at he
    have h := gecko_trace_flags net cache (jsDedup assetSymbols) e he
    exact ⟨h.1, h.2.1, h.2.2.1⟩
  · intro hr e he
    have e3 : afterCryptoCompare net cache assetSymbols =
        afterCoinMarketCap net cache assetSymbols :=
      orchStep_skip _ _ hr
    have e4 : afterKaiko net cache assetSymbols =
        afterCryptoCompare net cache assetSymbols :=
      orchStep_skip _ _ (by rw [e3]; exact hr)
    have htr : (fetchCryptoPrices net cache assetSymbols).2.2 =
        (afterCoinMarketCap net cache assetSymbols).trace := by
      show (afterKaiko net cache assetSymbols).trace = _
      rw [e4, e3]
    rw [htr] at he
    have h2 := orchStep_trace (afterCoinGecko net cache assetSymbols)
      (tryCoinMarketCap net) e he
    rcases h2 with h2 | h2
    · have h := gecko_trace_flags net cache (jsDedup assetSymbols) e h2
      exact ⟨h.2.1, h.2.2.1⟩
    · have h := cmc_trace_flags net _ e h2
      exact ⟨h.1, h.2.1⟩
  · intro hr e he
    have e4 : afterKaiko net cache assetSymbols =
        afterCryptoCompare net cache assetSymbols :=
      orchStep_skip _ _ hr
    have htr : (fetchCryptoPrices net cache assetSymbols).2.2 =
        (afterCryptoCompare net cache assetSymbols).trace := by
      show (afterKaiko net cache assetSymbols).trace = _
      rw [e4]
    rw [htr] at he
    have h3 := orchStep_trace (afterCoinMarketCap net cache assetSymbols)
      (tryCryptoCompare net) e he
    rcases h3 with h3 | h3
    · have h2 := orchStep_trace (afterCoinGecko net cache assetSymbols)
        (tryCoinMarketCap net) e h3
      rcases h2 with h2 | h2
      · exact (gecko_trace_flags net cache (jsDedup assetSymbols) e h2).2.2.1
      · exact (cmc_trace_flags net _ e h2).2.1
    · exact (cc_trace_flags net _ e h3).1
  · intro e he
    rcases fetch_trace_split net cache assetSymbols e he with h | h | h | h
    · exact (gecko_trace_flags net cache (jsDedup assetSymbols) e h).2.2.2
    · exact (cmc_trace_flags net _ e h).2.2
    · exact (cc_trace_flags net _ e h).2
    · exact kaiko_trace_flags net _ e h

/-- Counterexample to C5 as stated: for the empty input the remaining set
is empty from initialization, yet provider 1 is still invoked - its adapter
is entered (the entry event, the observable console log, is in the trace).
It issues no upstream request, but the stated "no subsequent provider is
invoked once the remaining set is empty" is false for provider 1. -/
theorem fetchCryptoPrices_shortcircuit_cex :
    jsDedup [] = ([] : List String) ∧
      Ev.callGecko [] ∈ (fetchCryptoPrices failNet none []).2.2 :=
  ⟨rfl, by decide⟩

/-- Witness for C5 (amended): in geckoNet provider 1 resolves everything,
so the remaining set after round 1 is empty, and the theorem yields that no
CoinMarketCap, CryptoCompare or Kaiko event occurs. -/
theorem fetchCryptoPrices_shortcircuit_witness :
    (afterCoinGecko geckoNet none ["BTC"]).remainingSymbols = [] ∧
      ∀ e ∈ (fetchCryptoPrices geckoNet none ["BTC"]).2.2,
        evIsCMC e = false ∧ evIsCC e = false ∧ evIsKaiko e = false :=
  ⟨by decide,
    (fetchCryptoPrices_shortcircuit geckoNet none ["BTC"]).1 (by decide)⟩

/- ============ Claims C6, C8, C9 ============ -/

/-- Counterexample to C6 as stated: with a failing directory endpoint and a
cold cache, a resolution run leaves the cache unpopulated, so the next run
fetches the directory again - two directory requests within one process
lifetime, refuting both "fetched at most once per process lifetime" and
"the fetch is not retried within the same process run". -/
theorem getCoinGeckoList_retry_cex :
    (fetchCryptoPrices failNet none ["BTC"]).2.1 = none ∧
      (((fetchCryptoPrices failNet none ["BTC"]).2.2 ++
          (fetchCryptoPrices failNet
            (fetchCryptoPrices failNet none ["BTC"]).2.1 ["BTC"]).2.2).filter
        (fun e => decide (e = Ev.reqGeckoList))).length = 2 :=
  ⟨by decide, by decide⟩

/-- C6 (amended): the directory is cached only after a successful fetch:
with a populated cache a lookup issues no request and returns the cached
list unchanged for the rest of the process lifetime; a successful first
fetch populates the cache; a failed fetch yields an empty directory for
that call but leaves the cache unpopulated, so the fetch IS retried on next
use (and symbol lookups fail only while the fetches keep failing). -/
theorem getCoinGeckoList_cache (net : Net) (L : List CoinGeckoCoin) :
    getCoinGeckoList net (some L) = (L, some L, []) ∧
      (net.coinGeckoListResp = some L →
        getCoinGeckoList net none = (L, some L, [Ev.reqGeckoList])) ∧
      (net.coinGeckoListResp = none →
        getCoinGeckoList net none = ([], none, [Ev.reqGeckoList])) := by
  refine ⟨rfl, ?_, ?_⟩
  · intro h
    simp only [getCoinGeckoList, h]
  · intro h
    simp only [getCoinGeckoList, h]

/-- Witness for C6 (amended): applied to the all-failing world. -/
theorem getCoinGeckoList_cache_witness :
    getCoinGeckoList failNet none = ([], none, [Ev.reqGeckoList]) :=
  (getCoinGeckoList_cache failNet []).2.2 rfl

/-- Counterexample to C8 as stated: identifiers differing only in case do
not collapse at the orchestrator boundary; the input with BTC and btc
yields two result entries, not one. -/
theorem dedup_case_sensitive_cex :
    (fetchCryptoPrices failNet none ["BTC", "btc"]).1.length = 2 ∧
      jsDedup ["BTC", "btc"] = ["BTC", "btc"] :=
  ⟨by decide, by decide⟩

/-- C8 (amended): uniqueness at the orchestrator boundary is enforced on
case-SENSITIVE string equality: exactly-equal duplicates collapse (result
keys are pairwise distinct), while two input identifiers that differ (even
only in letter case) each keep their own result entry.  (Adapters may
case-fold internally when querying upstream providers.) -/
theorem dedup_case_sensitive (net : Net)
    (cache : Option (List CoinGeckoCoin)) (assetSymbols : List String)
    (s t : String) (hs : s ∈ assetSymbols) (ht : t ∈ assetSymbols)
    (_hne : s ≠ t) :
    s ∈ keys (fetchCryptoPrices net cache assetSymbols).1 ∧
      t ∈ keys (fetchCryptoPrices net cache assetSymbols).1 ∧
      (keys (fetchCryptoPrices net cache assetSymbols).1).Nodup := by
  have h := fetch_keySpec net cache assetSymbols
  exact ⟨(h.2 s).mpr hs, (h.2 t).mpr ht, h.1⟩

/-- Witness for C8 (amended): BTC and btc both appear as distinct keys. -/
theorem dedup_case_sensitive_witness :
    "BTC" ∈ keys (fetchCryptoPrices failNet none ["BTC", "btc"]).1 ∧
      "btc" ∈ keys (fetchCryptoPrices failNet none ["BTC", "btc"]).1 ∧
      (keys (fetchCryptoPrices failNet none ["BTC", "btc"]).1).Nodup :=
  dedup_case_sensitive failNet none ["BTC", "btc"] "BTC" "btc"
    (by decide) (by decide) (by decide)

theorem orchStep_congr (st1 st2 : OrchState)
    (prov : List String → PriceResult × List Ev)
    (hf : st1.finalPrices = st2.finalPrices)
    (hr : st1.remainingSymbols = st2.remainingSymbols) :
    (orchStep st1 prov).finalPrices = (orchStep st2 prov).finalPrices ∧
      (orchStep st1 prov).remainingSymbols =
        (orchStep st2 prov).remainingSymbols := by
  by_cases hg : st2.remainingSymbols.length > 0
  · have hg1 : st1.remainingSymbols.length > 0 := by
      rw [hr]
      exact hg
    rw [orchStep, orchStep, if_pos hg, if_pos hg1]
    constructor
    · show jassign st1.finalPrices (prov st1.remainingSymbols).1 =
        jassign st2.finalPrices (prov st2.remainingSymbols).1
      rw [hf, hr]
    · show st1.remainingSymbols.filter _ = st2.remainingSymbols.filter _
      rw [hf, hr]
  · have hg1 : ¬st1.remainingSymbols.length > 0 := by
      rw [hr]
      exact hg
    rw [orchStep, orchStep, if_neg hg, if_neg hg1]
    exact ⟨hf, hr⟩

theorem getCoinGeckoList_idem (net : Net)
    (cache : Option (List CoinGeckoCoin)) :
    (getCoinGeckoList net ((getCoinGeckoList net cache).2.1)).1 =
      (getCoinGeckoList net cache).1 := by
  cases cache with
  | some l => rfl
  | none =>
    cases hr : net.coinGeckoListResp with
    | some d => simp [getCoinGeckoList, hr]
    | none => simp [getCoinGeckoList, hr]

theorem tryCoinGecko_cacheOut (net : Net)
    (cache : Option (List CoinGeckoCoin)) (symbols : List String) :
    (tryCoinGecko net cache symbols).2.1 = cache ∨
      (tryCoinGecko net cache symbols).2.1 =
        (getCoinGeckoList net cache).2.1 := by
  rw [tryCoinGecko]
  by_cases h0 : symbols.length = 0
  · rw [if_pos h0]
    exact Or.inl rfl
  · rw [if_neg h0]
    by_cases h1 :
        (geckoScan (getCoinGeckoList net cache).1 symbols).2.length = 0
    · simp only [if_pos h1]
      exact Or.inr trivial
    · simp only [if_neg h1]
      cases hm : net.coinGeckoMarketsResp with
      | none => exact Or.inr rfl
      | some md => exact Or.inr rfl

theorem tryCoinGecko_rec_eq (net : Net)
    (c1 c2 : Option (List CoinGeckoCoin)) (symbols : List String)
    (h : (getCoinGeckoList net c1).1 = (getCoinGeckoList net c2).1) :
    (tryCoinGecko net c1 symbols).1 = (tryCoinGecko net c2 symbols).1 := by
  by_cases h0 : symbols.length = 0
  · simp only [tryCoinGecko, if_pos h0]
  · simp only [tryCoinGecko, if_neg h0, h]
    by_cases h1 :
        (geckoScan (getCoinGeckoList net c2).1 symbols).2.length = 0
    · simp only [if_pos h1]
    · simp only [if_neg h1]
      cases hm : net.coinGeckoMarketsResp with
      | none => rfl
      | some md => rfl

theorem fetch_cacheOut (net : Net) (cache : Option (List CoinGeckoCoin))
    (assetSymbols : List String) :
    (fetchCryptoPrices net cache assetSymbols).2.1 =
      (tryCoinGecko net cache (jsDedup assetSymbols)).2.1 := by
  calc (fetchCryptoPrices net cache assetSymbols).2.1
      = (afterCryptoCompare net cache assetSymbols).cache :=
        orchStep_cache (afterCryptoCompare net cache assetSymbols)
          (tryKaiko net)
    _ = (afterCoinMarketCap net cache assetSymbols).cache :=
        orchStep_cache _ (tryCryptoCompare net)
    _ = (afterCoinGecko net cache assetSymbols).cache :=
        orchStep_cache _ (tryCoinMarketCap net)
    _ = (tryCoinGecko net cache (jsDedup assetSymbols)).2.1 := rfl

theorem fetch_rec_congr (net : Net) (c1 c2 : Option (List CoinGeckoCoin))
    (assetSymbols : List String)
    (h : (tryCoinGecko net c1 (jsDedup assetSymbols)).1 =
      (tryCoinGecko net c2 (jsDedup assetSymbols)).1) :
    (fetchCryptoPrices net c1 assetSymbols).1 =
      (fetchCryptoPrices net c2 assetSymbols).1 := by
  have h1 : (afterCoinGecko net c1 assetSymbols).finalPrices =
      (afterCoinGecko net c2 assetSymbols).finalPrices := by
    show jassign [] (tryCoinGecko net c1 (jsDedup assetSymbols)).1 =
      jassign [] (tryCoinGecko net c2 (jsDedup assetSymbols)).1
    rw [h]
  have h1r : (afterCoinGecko net c1 assetSymbols).remainingSymbols =
      (afterCoinGecko net c2 assetSymbols).remainingSymbols := by
    show (jsDedup assetSymbols).filter
        (fun s => !jhas
          (jassign [] (tryCoinGecko net c1 (jsDedup assetSymbols)).1) s) =
      (jsDedup assetSymbols).filter
        (fun s => !jhas
          (jassign [] (tryCoinGecko net c2 (jsDedup assetSymbols)).1) s)
    rw [h]
  have h2 := orchStep_congr (afterCoinGecko net c1 assetSymbols)
    (afterCoinGecko net c2 assetSymbols) (tryCoinMarketCap net) h1 h1r
  have h3 := orchStep_congr (afterCoinMarketCap net c1 assetSymbols)
    (afterCoinMarketCap net c2 assetSymbols) (tryCryptoCompare net) h2.1 h2.2
  have h4 := orchStep_congr (afterCryptoCompare net c1 assetSymbols)
    (afterCryptoCompare net c2 assetSymbols) (tryKaiko net) h3.1 h3.2
  show zeroFill (afterKaiko net c1 assetSymbols).finalPrices
      (afterKaiko net c1 assetSymbols).remainingSymbols = _
  rw [show (afterKaiko net c1 assetSymbols).finalPrices =
      (afterKaiko net c2 assetSymbols).finalPrices from h4.1,
    show (afterKaiko net c1 assetSymbols).remainingSymbols =
      (afterKaiko net c2 assetSymbols).remainingSymbols from h4.2]
  rfl

/-- C9: fetchCryptoPrices is deterministic and cache-stable.  Re-running it
against the same upstream world, starting from the cache state the previous
run left behind, yields the identical output mapping; and when the upstream
directory is unchanged (the list endpoint serves exactly the cached list L),
the output does not depend on whether the cache was already populated. -/
theorem fetchCryptoPrices_idempotent (net : Net)
    (cache : Option (List CoinGeckoCoin)) (assetSymbols : List String)
    (L : List CoinGeckoCoin) :
    (fetchCryptoPrices net (fetchCryptoPrices net cache assetSymbols).2.1
        assetSymbols).1 =
      (fetchCryptoPrices net cache assetSymbols).1 ∧
      (net.coinGeckoListResp = some L →
        (fetchCryptoPrices net (some L) assetSymbols).1 =
          (fetchCryptoPrices net none assetSymbols).1) := by
  constructor
  · rw [fetch_cacheOut]
    apply fetch_rec_congr
    apply tryCoinGecko_rec_eq
    rcases tryCoinGecko_cacheOut net cache (jsDedup assetSymbols) with hc | hc
    · rw [hc]
    · rw [hc]
      exact getCoinGeckoList_idem net cache
  · intro h
    apply fetch_rec_congr
    apply tryCoinGecko_rec_eq
    simp [getCoinGeckoList, h]

/-- Witness for C9: in geckoNet, resolving with a pre-populated cache that
matches the upstream directory gives the same mapping as with a cold cache. -/
theorem fetchCryptoPrices_idempotent_witness :
    (fetchCryptoPrices geckoNet
        (some [{ id := "bitcoin", symbol := "btc", name := "Bitcoin" }])
        ["BTC"]).1 =
      (fetchCryptoPrices geckoNet none ["BTC"]).1 :=
  (fetchCryptoPrices_idempotent geckoNet none ["BTC"]
    [{ id := "bitcoin", symbol := "btc", name := "Bitcoin" }]).2 rfl
